import Mathlib

/-!
# Verification of the GoogleTranslator batch encode/decode core

Shallow embedding of `src/translators/GoogleTranslator/index.ts`.

The network transport, CORS proxy and token service are external
collaborators: every translate call is embedded as a pure function from the
input segment list and the raw JSON reply (the value the transport hands
back) to either a translation list or the thrown `Error`.  JavaScript
`Error` values are modelled by the message string they carry, since that is
all the code puts into them.
-/

/-- A raw JSON-like reply value: primitive leaves (string, number, null)
or nested arrays, as described by the RawReply data model. -/
inductive JValue where
  | str (s : String)
  | num (n : Int)
  | null
  | arr (items : List JValue)
deriving Repr

/-- A thrown JavaScript `Error`, modelled by its message. -/
structure JSError where
  message : String
deriving Repr, DecidableEq

deriving instance DecidableEq for Except

/-- `new Error('Unexpected response')` thrown on a non-array reply. -/
def unexpectedResponseError : JSError :=
  ⟨"Unexpected response"⟩

/-- `new Error('Mismatching a lengths of original and translated arrays')`
thrown when the reconciled result length differs from the input length. -/
def lengthMismatchError : JSError :=
  ⟨"Mismatching a lengths of original and translated arrays"⟩

mutual

/-- Modelled from the spec: `visitArrayItems` (Leaf Flattener) lives in
`src/translators/GoogleTranslator/utils`, which is not part of the sources
given; per §4.1 it walks the nested reply depth-first left-to-right and
visits every primitive leaf exactly once, recursing into arrays without
visiting them.  `leaves v` is the ordered list of leaves the visitor sees
when called on `v`. -/
def JValue.leaves : JValue → List JValue
  | .arr items => JValue.leavesList items
  | v => [v]

def JValue.leavesList : List JValue → List JValue
  | [] => []
  | v :: vs => v.leaves ++ JValue.leavesList vs

end

/-- The string-typed leaves of a reply, in visit order: the list
`intermediateTextsArray` built by the token-free `translateBatch`. -/
def JValue.stringLeaves (v : JValue) : List String :=
  v.leaves.filterMap fun l =>
    match l with
    | .str s => some s
    | _ => none

namespace AbstractGoogleTranslator

/-- `fixedLanguagesMap`: legacy Google language-code aliases. -/
def fixedLanguagesMap (lang : String) : Option String :=
  if lang = "he" then some "iw"
  else if lang = "jv" then some "jw"
  else none

/-- `getLengthLimit`: the 4000-character limit. -/
def getLengthLimit : Nat := 4000

/-- `getFixedLanguage`: maps `zh` to `zh-CN`, then applies
`fixedLanguagesMap` with fallback to the code itself. -/
def getFixedLanguage (lang : String) : String :=
  if lang = "zh" then "zh-CN"
  else (fixedLanguagesMap lang).getD lang

end AbstractGoogleTranslator

namespace GoogleTranslatorTokenFree

/-- The loop body filter of the token-free `translateBatch` for the
non-single case: entry at index `idx` is kept when
`isOneToOneMappingMode || idx % 2 == 0`. -/
def keptEntries (oneToOne : Bool) (collected : List String) : List String :=
  collected.enum.filterMap fun p =>
    if oneToOne || p.1 % 2 = 0 then some p.2 else none

/-- `GoogleTranslatorTokenFree.translateBatch`, embedded as a pure function
of the input segments and the raw reply.  Mirrors the source: reject a
non-array reply, collect the string leaves, reconcile by mode
(single-response / one-to-one / parity filter), then enforce the length. -/
def translateBatch (text : List String) (rawResp : JValue) :
    Except JSError (List String) :=
  match rawResp with
  | .arr items =>
    let intermediateTextsArray := (JValue.arr items).stringLeaves
    let isSingleResponseMode := text.length = 1
    let isOneToOneMappingMode := intermediateTextsArray.length = text.length
    let result :=
      if isSingleResponseMode then intermediateTextsArray.take 1
      else keptEntries isOneToOneMappingMode intermediateTextsArray
    if result.length = text.length then .ok result
    else .error lengthMismatchError
  | _ => .error unexpectedResponseError

/-- `GoogleTranslatorTokenFree.translate`: destructures the head of
`translateBatch [text]`.  On success the batch result provably has length
one, so the `headD` default is never used. -/
def translate (text : String) (rawResp : JValue) : Except JSError String :=
  (translateBatch [text] rawResp).map fun l => l.headD ""

end GoogleTranslatorTokenFree

/-- A parsed markup element tree.  Modelled from the spec: the DOM built by
the external `DOMParser` is, per §4.2, "a small element tree" of container
elements and text; attributes are carried by the fragments but never
inspected by the decoder, so they are skipped during parsing and omitted
from the tree. -/
inductive XNode where
  | text (s : String)
  | elem (tag : String) (children : List XNode)
deriving Repr

/-- Characters accepted in an element name by the fragment parser. -/
def isNameChar (c : Char) : Bool :=
  c.isAlpha || c.isDigit || c = '-'

/-- Skip the attribute region of a start tag: consume characters up to the
closing `>` (or self-closing `/>`), treating `>` inside double quotes as
attribute text.  Returns whether the tag was self-closing and the rest. -/
def scanAttrs (inQuote : Bool) : List Char → Option (Bool × List Char)
  | [] => none
  | c :: rest =>
    if inQuote then
      if c = '"' then scanAttrs false rest else scanAttrs true rest
    else
      if c = '>' then some (false, rest)
      else if c = '/' then
        match rest with
        | '>' :: rest' => some (true, rest')
        | _ => scanAttrs false rest
      else if c = '"' then scanAttrs true rest
      else scanAttrs false rest

/-- Consume the closing tag `</name>` or fail. -/
def expectClose (tagName : List Char) (cs : List Char) : Option (List Char) :=
  match cs with
  | c1 :: c2 :: rest =>
    if c1 = '<' ∧ c2 = '/' then
      if rest.take tagName.length = tagName then
        match rest.drop tagName.length with
        | '>' :: rest' => some rest'
        | _ => none
      else none
    else none
  | _ => none

/-- Whether the input starts with a closing tag `</`. -/
def isCloseAhead (cs : List Char) : Bool :=
  match cs with
  | c1 :: c2 :: _ => if c1 = '<' ∧ c2 = '/' then true else false
  | _ => false

mutual

/-- Modelled from the spec: one node of the external XML fragment parser
(`DOMParser.parseFromString`, an external collaborator): a start tag with
children up to the matching close tag, a self-closed element, or a maximal
nonempty text run.  `fuel` bounds the recursion depth. -/
def parseNode : Nat → List Char → Option (XNode × List Char)
  | 0, _ => none
  | fuel + 1, cs =>
    match cs with
    | [] => none
    | c :: rest =>
      if c = '<' then
        let tagName := rest.takeWhile isNameChar
        let afterName := rest.dropWhile isNameChar
        if tagName.isEmpty then none
        else
          match scanAttrs false afterName with
          | none => none
          | some (true, rest') => some (.elem tagName.asString [], rest')
          | some (false, rest') =>
            match parseNodes fuel rest' with
            | none => none
            | some (children, rest'') =>
              match expectClose tagName rest'' with
              | none => none
              | some rest''' => some (.elem tagName.asString children, rest''')
      else
        let txt := (c :: rest).takeWhile (· ≠ '<')
        some (.text txt.asString, (c :: rest).dropWhile (· ≠ '<'))

/-- A sequence of sibling nodes, ending at the input's end or at a closing
tag. -/
def parseNodes : Nat → List Char → Option (List XNode × List Char)
  | 0, cs =>
    if cs.isEmpty then some ([], cs)
    else if isCloseAhead cs then some ([], cs)
    else none
  | fuel + 1, cs =>
    if cs.isEmpty then some ([], cs)
    else if isCloseAhead cs then some ([], cs)
    else
      match parseNode fuel cs with
      | none => none
      | some (n, rest) =>
        match parseNodes fuel rest with
        | none => none
        | some (ns, rest') => some (n :: ns, rest')

end

/-- Parse a whole string into a list of root nodes; any leftover input or
malformed markup is a parse failure. -/
def parseXMLString (s : String) : Option (List XNode) :=
  match parseNodes (s.length + 1) s.data with
  | some (roots, []) => some roots
  | _ => none

mutual

/-- All text-node values below a node, depth-first (the `//text()` step of
the decoder's query, taken from a child element). -/
def XNode.descTexts : XNode → List String
  | .text s => [s]
  | .elem _ children => XNode.descTextsList children

def XNode.descTextsList : List XNode → List String
  | [] => []
  | c :: cs => c.descTexts ++ XNode.descTextsList cs

end

mutual

/-- Modelled from the spec: the node-set selected by the external `xpath`
engine for `//pre/*[not(self::i)]//text()`, in document order — for every
`pre` element, the text content below its element children not tagged `i`;
text directly below `pre` and text below `i` children are not selected.
The reply fragments hold at most one container, so nested `pre` elements
(where real XPath would deduplicate shared text nodes) do not arise. -/
def XNode.selectTexts : XNode → List String
  | .text _ => []
  | .elem tag children =>
    (if tag = "pre" then
      children.flatMap fun c =>
        match c with
        | .elem ctag _ => if ctag = "i" then [] else c.descTexts
        | .text _ => []
    else [])
    ++ XNode.selectTextsList children

def XNode.selectTextsList : List XNode → List String
  | [] => []
  | c :: cs => c.selectTexts ++ XNode.selectTextsList cs

end

mutual

/-- Spec's words, for refutation of the claimed decode: "the concatenation
of all text content found under the container element, excluding any child
explicitly tagged as an annotation" — all text below a `pre`, including
text sitting directly below it, with only `i`-tagged children excluded. -/
def XNode.claimedTexts : XNode → List String
  | .text _ => []
  | .elem tag children =>
    (if tag = "pre" then
      children.flatMap fun c =>
        match c with
        | .elem ctag _ => if ctag = "i" then [] else c.descTexts
        | .text t => [t]
    else [])
    ++ XNode.claimedTextsList children

def XNode.claimedTextsList : List XNode → List String
  | [] => []
  | c :: cs => c.claimedTexts ++ XNode.claimedTextsList cs

end

/-- Spec's words, for refutation: decode as the plain concatenation (no
separator) of `claimedTexts`, `none` on parse failure or no content. -/
def claimedDecode (s : String) : Option String :=
  match parseXMLString s with
  | none => none
  | some doc =>
    let texts := doc.flatMap XNode.claimedTexts
    if texts.length = 0 then none
    else some (String.join texts)

mutual

/-- All `pre` elements of a tree, in document order. -/
def XNode.collectPres : XNode → List XNode
  | .text _ => []
  | .elem tag children =>
    (if tag = "pre" then [XNode.elem tag children] else [])
    ++ XNode.collectPresList children

def XNode.collectPresList : List XNode → List XNode
  | [] => []
  | c :: cs => c.collectPres ++ XNode.collectPresList cs

end

/-- The text selected below one container, per the amended reading: for a
`pre` element, the text content below its element children not tagged `i`.
-/
def XNode.preKeptTexts : XNode → List String
  | .text _ => []
  | .elem _ children =>
    children.flatMap fun c =>
      match c with
      | .elem ctag _ => if ctag = "i" then [] else c.descTexts
      | .text _ => []

/-- Amended-spec formulation of the selection: gather every container
(`pre`) element of the document, then for each container the text below
its non-`i` element children. -/
def specKeptTexts (n : XNode) : List String :=
  n.collectPres.flatMap XNode.preKeptTexts

/-- A markup-special character: one that the markup fragments use for
structure. -/
def isMarkupSpecial (c : Char) : Prop :=
  c = '<' ∨ c = '>' ∨ c = '&'

instance (c : Char) : Decidable (isMarkupSpecial c) := by
  unfold isMarkupSpecial; infer_instance

namespace GoogleTranslator

/-- `GoogleTranslator.parseXMLResponse`: parse the leaf as markup, select
text below non-`i` element children of `pre`, join with a space; `none`
(JS `null`) when parsing fails or nothing was selected. -/
def parseXMLResponse (text : String) : Option String :=
  match parseXMLString text with
  | none => none
  | some doc =>
    let nodes := doc.flatMap XNode.selectTexts
    if nodes.length = 0 then none
    else some (String.intercalate " " nodes)

/-- `GoogleTranslator.encodeForBatch`: wrap the segment at position `i` as
the fragment `<pre><a i="i">text</a></pre>`. -/
def encodeForBatch (textList : List String) : List String :=
  textList.enum.map fun p =>
    "<pre><a i=\"" ++ toString p.1 ++ "\">" ++ p.2 ++ "</a></pre>"

/-- `GoogleTranslator.checkLimitExceeding`: for a list, compare the length
of the concatenated encoded fragments against the limit; for a single
string, its raw length.  JS returns `extra > 0 ? extra : 0`; truncated
`Nat` subtraction renders the clamp at zero. -/
def checkLimitExceeding : String ⊕ List String → Nat
  | .inr text =>
    let encodedText := String.join (encodeForBatch text)
    encodedText.length - AbstractGoogleTranslator.getLengthLimit
  | .inl text => text.length - AbstractGoogleTranslator.getLengthLimit

/-- The visitor body of the token-authorized `translateBatch`: skip once a
single-mode result is full, skip non-strings, then decode — single mode
pushes `parsedText || obj` (falling back to the raw leaf on `null` or empty
decode), batch mode pushes only successful decodes. -/
def reconcileLeaf (isSingleResponseMode : Bool) (result : List String)
    (obj : JValue) : List String :=
  if isSingleResponseMode && result.length == 1 then result
  else
    match obj with
    | .str s =>
      if isSingleResponseMode then
        match parseXMLResponse s with
        | some p => result ++ [if p = "" then s else p]
        | none => result ++ [s]
      else
        match parseXMLResponse s with
        | some p => result ++ [p]
        | none => result
    | _ => result

/-- `GoogleTranslator.translateBatch`, embedded as a pure function of the
input segments and the raw reply: reject a non-array reply, visit the
leaves accumulating results, then enforce the length. -/
def translateBatch (text : List String) (rawResp : JValue) :
    Except JSError (List String) :=
  match rawResp with
  | .arr items =>
    let isSingleResponseMode := text.length == 1
    let result :=
      (JValue.arr items).leaves.foldl (reconcileLeaf isSingleResponseMode) []
    if result.length = text.length then .ok result
    else .error lengthMismatchError
  | _ => .error unexpectedResponseError

end GoogleTranslator

/-- Every second element of a list, starting with the first. -/
def evens {α : Type} : List α → List α
  | [] => []
  | [x] => [x]
  | x :: _ :: rest => x :: evens rest

theorem keptEntries_false_eq_evens {α : Type} (l : List α) :
    (l.enum.filterMap fun p => if p.1 % 2 = 0 then some (p.2 : α) else none)
      = evens l := by
  have key : ∀ (l : List α) (k : Nat),
      ((l.enumFrom (2 * k)).filterMap fun p =>
        if p.1 % 2 = 0 then some p.2 else none) = evens l := by
    intro l
    induction l using evens.induct with
    | case1 => intro k; simp [evens]
    | case2 x => intro k; simp [evens, List.enumFrom, Nat.mul_mod_right]
    | case3 x y rest ih =>
      intro k
      have h1 : (2 * k) % 2 = 0 := Nat.mul_mod_right 2 k
      have h2 : (2 * k + 1) % 2 = 1 := by omega
      have h3 : 2 * k + 1 + 1 = 2 * (k + 1) := by ring
      simp only [List.enumFrom, List.filterMap, evens, h1, h2, h3, ih (k + 1)]
      simp [h1, h2]
  have := key l 0
  simpa [List.enum] using this

theorem length_evens {α : Type} (l : List α) :
    (evens l).length = (l.length + 1) / 2 := by
  induction l using evens.induct with
  | case1 => simp [evens]
  | case2 x => simp [evens]
  | case3 x y rest ih => simp [evens, ih]; omega

theorem getD_evens {α : Type} (l : List α) (i : Nat) (d : α)
    (h : 2 * i < l.length) : (evens l).getD i d = l.getD (2 * i) d := by
  induction l using evens.induct generalizing i with
  | case1 => simp at h
  | case2 x =>
    have hi : i = 0 := by simp at h; omega
    subst hi
    simp [evens]
  | case3 x y rest ih =>
    match i with
    | 0 => simp [evens]
    | i + 1 =>
      have h' : 2 * i < rest.length := by simp at h; omega
      have h2 : 2 * (i + 1) = 2 * i + 1 + 1 := by ring
      simp only [evens, h2, List.getD_cons_succ]
      exact ih i h'

theorem join_length (l : List String) :
    (String.join l).length = (l.map String.length).sum := by
  have key : ∀ (l : List String) (acc : String),
      (l.foldl (fun r s => r ++ s) acc).length
        = acc.length + (l.map String.length).sum := by
    intro l
    induction l with
    | nil => simp
    | cons s rest ih =>
      intro acc
      simp [ih, String.length_append]
      omega
  simpa using key l ""

theorem encodeForBatch_map_length (texts : List String) :
    (GoogleTranslator.encodeForBatch texts).map String.length
      = texts.enum.map fun p => 23 + (toString p.1).length + p.2.length := by
  simp only [GoogleTranslator.encodeForBatch, List.map_map]
  refine List.map_congr_left fun p _ => ?_
  have h1 : ("<pre><a i=\"" : String).length = 11 := rfl
  have h2 : ("\">" : String).length = 2 := rfl
  have h3 : ("</a></pre>" : String).length = 10 := rfl
  simp [String.length_append, h1, h2, h3]
  omega

/-- C8: `checkLimitExceeding` on a segment list measures the concatenated
markup-encoded fragments — each contributing its 23 wrapper characters plus
the decimal index plus the raw text — against the 4000 limit, truncating at
zero; on a single string it measures the raw length alone. -/
theorem checkLimitExceeding_measures_encoded (texts : List String) (s : String) :
    GoogleTranslator.checkLimitExceeding (.inr texts)
        = (texts.enum.map fun p => 23 + (toString p.1).length + p.2.length).sum
            - 4000
      ∧ GoogleTranslator.checkLimitExceeding (.inl s) = s.length - 4000 := by
  constructor
  · simp only [GoogleTranslator.checkLimitExceeding, join_length,
      encodeForBatch_map_length, AbstractGoogleTranslator.getLengthLimit]
  · rfl

/-- C9: `getFixedLanguage` rewrites exactly the three aliased codes and is
idempotent on every language code. -/
theorem getFixedLanguage_aliases_and_idempotent :
    AbstractGoogleTranslator.getFixedLanguage "zh" = "zh-CN"
      ∧ AbstractGoogleTranslator.getFixedLanguage "he" = "iw"
      ∧ AbstractGoogleTranslator.getFixedLanguage "jv" = "jw"
      ∧ (∀ x, x ≠ "zh" → x ≠ "he" → x ≠ "jv" →
          AbstractGoogleTranslator.getFixedLanguage x = x)
      ∧ ∀ x, AbstractGoogleTranslator.getFixedLanguage
          (AbstractGoogleTranslator.getFixedLanguage x)
            = AbstractGoogleTranslator.getFixedLanguage x := by
  refine ⟨by decide, by decide, by decide, ?_, ?_⟩
  · intro x h1 h2 h3
    simp [AbstractGoogleTranslator.getFixedLanguage,
      AbstractGoogleTranslator.fixedLanguagesMap, h1, h2, h3]
  · intro x
    by_cases h1 : x = "zh"
    · subst h1; decide
    · by_cases h2 : x = "he"
      · subst h2; decide
      · by_cases h3 : x = "jv"
        · subst h3; decide
        · simp [AbstractGoogleTranslator.getFixedLanguage,
            AbstractGoogleTranslator.fixedLanguagesMap, h1, h2, h3]

/-- Witness for C9: the unaliased code `en` passes through unchanged. -/
theorem getFixedLanguage_aliases_and_idempotent_witness :
    AbstractGoogleTranslator.getFixedLanguage "en" = "en" :=
  getFixedLanguage_aliases_and_idempotent.2.2.2.1 "en" (by decide) (by decide)
    (by decide)

theorem checkLen_ok {result res : List String} {n : Nat}
    (h : (if result.length = n then (.ok result : Except JSError (List String))
          else .error lengthMismatchError) = .ok res) :
    res = result ∧ res.length = n := by
  split at h
  · cases h; exact ⟨rfl, by assumption⟩
  · cases h

theorem checkLen_err {result : List String} {n : Nat} {e : JSError}
    (h : (if result.length = n then (.ok result : Except JSError (List String))
          else .error lengthMismatchError) = .error e) :
    e = lengthMismatchError ∧ result.length ≠ n := by
  split at h
  · cases h
  · cases h; exact ⟨rfl, by assumption⟩

theorem tokenFree_ok_length (text : List String) (r : JValue)
    (res : List String)
    (h : GoogleTranslatorTokenFree.translateBatch text r = .ok res) :
    res.length = text.length := by
  cases r
  case arr items =>
    simp only [GoogleTranslatorTokenFree.translateBatch] at h
    exact (checkLen_ok h).2
  all_goals simp [GoogleTranslatorTokenFree.translateBatch] at h

theorem tokenFree_err_msg (text : List String) (items : List JValue)
    (e : JSError)
    (h : GoogleTranslatorTokenFree.translateBatch text (.arr items) = .error e) :
    e = lengthMismatchError := by
  simp only [GoogleTranslatorTokenFree.translateBatch] at h
  exact (checkLen_err h).1

theorem gt_ok_length (text : List String) (r : JValue) (res : List String)
    (h : GoogleTranslator.translateBatch text r = .ok res) :
    res.length = text.length := by
  cases r
  case arr items =>
    simp only [GoogleTranslator.translateBatch] at h
    exact (checkLen_ok h).2
  all_goals simp [GoogleTranslator.translateBatch] at h

theorem gt_err_msg (text : List String) (items : List JValue) (e : JSError)
    (h : GoogleTranslator.translateBatch text (.arr items) = .error e) :
    e = lengthMismatchError := by
  simp only [GoogleTranslator.translateBatch] at h
  exact (checkLen_err h).1

/-- C1 (amended): a successful call of either batch variant returns exactly
one string per input segment, and whenever reconciliation fails the call
rejects with the LengthMismatch error — which carries only its fixed
message, not the expected/actual counts. -/
theorem batch_length_contract (text : List String) (r : JValue) :
    (∀ res, GoogleTranslator.translateBatch text r = .ok res →
        res.length = text.length)
  ∧ (∀ res, GoogleTranslatorTokenFree.translateBatch text r = .ok res →
        res.length = text.length)
  ∧ (∀ items e, GoogleTranslator.translateBatch text (.arr items) = .error e →
        e = lengthMismatchError)
  ∧ (∀ items e,
        GoogleTranslatorTokenFree.translateBatch text (.arr items) = .error e →
        e = lengthMismatchError) :=
  ⟨fun res h => gt_ok_length text r res h,
   fun res h => tokenFree_ok_length text r res h,
   fun items e h => gt_err_msg text items e h,
   fun items e h => tokenFree_err_msg text items e h⟩

/-- Witness for C1 (amended), applying the success-length clause at a
one-to-one reply and the error clause at a too-short reply. -/
theorem batch_length_contract_witness :
    (["a", "b"] : List String).length = (["x", "y"] : List String).length
  ∧ lengthMismatchError = lengthMismatchError :=
  ⟨(batch_length_contract ["x", "y"] (.arr [.str "a", .str "b"])).2.1
      ["a", "b"] (by decide),
   (batch_length_contract ["hi"] (.arr [])).2.2.2 [] lengthMismatchError
      (by decide)⟩

/-- C1 refuted as stated: the LengthMismatch rejections for two calls with
different expected/actual count pairs — (2, 1) and (1, 0) — are the very
same error value, so the error cannot carry the counts as the claim says.
-/
theorem lengthMismatch_error_has_no_counts :
    GoogleTranslatorTokenFree.translateBatch ["a", "b"] (.arr [.str "x"])
        = .error lengthMismatchError
  ∧ GoogleTranslatorTokenFree.translateBatch ["c"] (.arr [])
        = .error lengthMismatchError
  ∧ ((2, 1) : Nat × Nat) ≠ (1, 0) := by
  decide

theorem keptEntries_nil (oneToOne : Bool) :
    GoogleTranslatorTokenFree.keptEntries oneToOne [] = [] := rfl

/-- C5 (amended): a non-array reply is rejected by both batch variants as
UnexpectedShape before any reconciliation; an empty-array reply passes the
shape check, yields no leaves, and instead fails reconciliation as
LengthMismatch whenever at least one segment was requested. -/
theorem shape_error_contract (text : List String) (r : JValue) :
    ((∀ items, r ≠ .arr items) →
        GoogleTranslator.translateBatch text r = .error unexpectedResponseError
      ∧ GoogleTranslatorTokenFree.translateBatch text r
          = .error unexpectedResponseError)
  ∧ (text ≠ [] →
        GoogleTranslator.translateBatch text (.arr [])
          = .error lengthMismatchError
      ∧ GoogleTranslatorTokenFree.translateBatch text (.arr [])
          = .error lengthMismatchError) := by
  constructor
  · intro hna
    cases r
    case arr items => exact absurd rfl (hna items)
    all_goals exact ⟨rfl, rfl⟩
  · intro hne
    have hlen : ¬ ([] : List String).length = text.length := by
      simpa using fun h => hne (List.length_eq_zero.mp h.symm)
    constructor
    · simp only [GoogleTranslator.translateBatch]
      have hres : (JValue.arr []).leaves.foldl
          (GoogleTranslator.reconcileLeaf (text.length == 1)) [] = [] := rfl
      rw [hres, if_neg hlen]
    · simp only [GoogleTranslatorTokenFree.translateBatch]
      have hsl : (JValue.arr []).stringLeaves = [] := rfl
      rw [hsl]
      simp only [List.take_nil, keptEntries_nil, ite_self]
      rw [if_neg hlen]

/-- Witness for C5 (amended): a string reply is UnexpectedShape; an empty
array reply is LengthMismatch. -/
theorem shape_error_contract_witness :
    (GoogleTranslator.translateBatch ["hi"] (.str "oops")
        = .error unexpectedResponseError
      ∧ GoogleTranslatorTokenFree.translateBatch ["hi"] (.str "oops")
        = .error unexpectedResponseError)
  ∧ GoogleTranslatorTokenFree.translateBatch ["hi"] (.arr [])
      = .error lengthMismatchError :=
  ⟨(shape_error_contract ["hi"] (.str "oops")).1
      (fun items h => JValue.noConfusion h),
   ((shape_error_contract ["hi"] (.arr [])).2 (by decide)).2⟩

/-- C5 refuted as stated: an empty-array reply makes both variants reject
with LengthMismatch, not UnexpectedShape. -/
theorem emptyArray_reply_not_unexpectedShape :
    GoogleTranslator.translateBatch ["hi"] (.arr [])
        = .error lengthMismatchError
  ∧ GoogleTranslatorTokenFree.translateBatch ["hi"] (.arr [])
        = .error lengthMismatchError
  ∧ lengthMismatchError ≠ unexpectedResponseError := by
  decide

/-- C4: with a single input segment, the token-free variant returns exactly
the first collected string leaf and ignores every later leaf. -/
theorem tokenFree_single_takes_first (t x : String) (rest : List String)
    (items : List JValue)
    (h : (JValue.arr items).stringLeaves = x :: rest) :
    GoogleTranslatorTokenFree.translateBatch [t] (.arr items) = .ok [x] := by
  simp [GoogleTranslatorTokenFree.translateBatch, h]

/-- Witness for C4, the spec's concrete scenario: input `["hi"]`, reply
flattening to `["salut", "hi"]` (echo pair) still yields `["salut"]`. -/
theorem tokenFree_single_takes_first_witness :
    GoogleTranslatorTokenFree.translateBatch ["hi"]
        (.arr [.str "salut", .str "hi"]) = .ok ["salut"] :=
  tokenFree_single_takes_first "hi" "salut" ["hi"]
    [.str "salut", .str "hi"] (by decide)

/-- C10: the token-free single-segment `translate` is definitionally the
batch path at one segment — on success the batch result is a one-element
list whose element `translate` returns, and `translate` fails with exactly
the errors of `translateBatch [text]`. -/
theorem translate_refines_batch (t : String) (r : JValue) :
    (∀ res, GoogleTranslatorTokenFree.translateBatch [t] r = .ok res →
        ∃ x, res = [x] ∧ GoogleTranslatorTokenFree.translate t r = .ok x)
  ∧ (∀ e, GoogleTranslatorTokenFree.translate t r = .error e
        ↔ GoogleTranslatorTokenFree.translateBatch [t] r = .error e) := by
  constructor
  · intro res h
    have hlen : res.length = 1 := by
      simpa using tokenFree_ok_length [t] r res h
    obtain ⟨x, rfl⟩ : ∃ x, res = [x] := by
      match res, hlen with
      | [x], _ => exact ⟨x, rfl⟩
    exact ⟨x, rfl, by simp [GoogleTranslatorTokenFree.translate, h, Except.map]⟩
  · intro e
    constructor
    · intro h
      unfold GoogleTranslatorTokenFree.translate at h
      cases hb : GoogleTranslatorTokenFree.translateBatch [t] r with
      | ok res => rw [hb] at h; simp [Except.map] at h
      | error e' =>
        rw [hb] at h
        simp only [Except.map] at h
        cases h
        rfl
    · intro h
      simp [GoogleTranslatorTokenFree.translate, h, Except.map]

/-- Witness for C10 at the echo-pair reply: the batch succeeds with
`["salut"]` and `translate` returns its sole element. -/
theorem translate_refines_batch_witness :
    ∃ x, (["salut"] : List String) = [x]
      ∧ GoogleTranslatorTokenFree.translate "hi"
          (.arr [.str "salut", .str "hi"]) = .ok x :=
  (translate_refines_batch "hi" (.arr [.str "salut", .str "hi"])).1
    ["salut"] (by decide)

theorem keptEntries_false_eval (l : List String) :
    GoogleTranslatorTokenFree.keptEntries false l = evens l := by
  rw [← keptEntries_false_eq_evens]
  simp [GoogleTranslatorTokenFree.keptEntries]

/-- C2: in parity-filter mode (more than one segment, twice as many
collected string leaves as segments) the token-free batch succeeds and its
`i`-th entry is the collected leaf at even position `2 * i`; the leaves at
odd positions are discarded. -/
theorem parity_filter_even_positions (text : List String)
    (items : List JValue) (hN : 1 < text.length)
    (hM : (JValue.arr items).stringLeaves.length = 2 * text.length) :
    ∃ res, GoogleTranslatorTokenFree.translateBatch text (.arr items)
        = .ok res
      ∧ res.length = text.length
      ∧ ∀ i d, i < text.length →
          res.getD i d = (JValue.arr items).stringLeaves.getD (2 * i) d := by
  have hsingle : ¬ text.length = 1 := by omega
  have hOne : ¬ (JValue.arr items).stringLeaves.length = text.length := by
    omega
  have hkept : GoogleTranslatorTokenFree.keptEntries
      (decide ((JValue.arr items).stringLeaves.length = text.length))
      (JValue.arr items).stringLeaves
        = evens (JValue.arr items).stringLeaves := by
    rw [decide_eq_false hOne, keptEntries_false_eval]
  have hlen : (evens (JValue.arr items).stringLeaves).length = text.length := by
    rw [length_evens, hM]; omega
  refine ⟨evens (JValue.arr items).stringLeaves, ?_, hlen, ?_⟩
  · simp only [GoogleTranslatorTokenFree.translateBatch, if_neg hsingle,
      hkept, if_pos hlen]
  · intro i d hi
    exact getD_evens _ i d (by omega)

/-- Witness for C2: two segments, four collected leaves; the result is the
leaves at positions 0 and 2. -/
theorem parity_filter_even_positions_witness :
    ∃ res, GoogleTranslatorTokenFree.translateBatch ["a", "b"]
        (.arr [.str "w", .str "x", .str "y", .str "z"]) = .ok res
      ∧ res.length = (["a", "b"] : List String).length
      ∧ ∀ i d, i < (["a", "b"] : List String).length →
          res.getD i d = (JValue.arr
            [.str "w", .str "x", .str "y", .str "z"]).stringLeaves.getD
              (2 * i) d :=
  parity_filter_even_positions ["a", "b"]
    [.str "w", .str "x", .str "y", .str "z"] (by decide) (by decide)

theorem foldl_reconcileLeaf_false (leaves : List JValue) (acc : List String) :
    leaves.foldl (GoogleTranslator.reconcileLeaf false) acc
      = acc ++ leaves.filterMap fun v =>
          match v with
          | .str s => GoogleTranslator.parseXMLResponse s
          | _ => none := by
  induction leaves generalizing acc with
  | nil => simp
  | cons v vs ih =>
    simp only [List.foldl_cons, List.filterMap_cons]
    cases v with
    | str s =>
      cases hp : GoogleTranslator.parseXMLResponse s with
      | some p => simp [GoogleTranslator.reconcileLeaf, hp, ih]
      | none => simp [GoogleTranslator.reconcileLeaf, hp, ih]
    | num n => simp [GoogleTranslator.reconcileLeaf, ih]
    | null => simp [GoogleTranslator.reconcileLeaf, ih]
    | arr items => simp [GoogleTranslator.reconcileLeaf, ih]

/-- C3: with more than one segment, the token-authorized batch runs every
string leaf of the flattened reply through the markup decoder, keeps a leaf
(as its decoded content) exactly when decoding succeeds, silently discards
leaves whose decode fails, and can only abort through the final length
check — never because of a decode failure. -/
theorem tokenBatch_keeps_decoded_leaves (text : List String)
    (items : List JValue) (hN : 1 < text.length) :
    GoogleTranslator.translateBatch text (.arr items)
      = (let kept := (JValue.arr items).leaves.filterMap fun v =>
            match v with
            | .str s => GoogleTranslator.parseXMLResponse s
            | _ => none
         if kept.length = text.length then .ok kept
         else .error lengthMismatchError) := by
  have hsingle : (text.length == 1) = false :=
    beq_eq_false_iff_ne.mpr (by omega)
  simp only [GoogleTranslator.translateBatch, hsingle,
    foldl_reconcileLeaf_false, List.nil_append]

/-- Witness for C3, the spec's concrete scenario plus noise leaves: the
two markup fragments decode and are kept, the number leaf and the
undecodable string leaf are discarded, and the batch succeeds. -/
theorem tokenBatch_keeps_decoded_leaves_witness :
    GoogleTranslator.translateBatch ["hello", "world"]
        (.arr [.str "<pre><a i=\"0\">bonjour</a></pre>", .num 3,
               .str "<pre><a i=\"1\">monde</a></pre>", .str "noise"])
      = .ok ["bonjour", "monde"] := by
  rw [tokenBatch_keeps_decoded_leaves _ _ (by decide)]
  decide

theorem data_asString (s : String) : s.data.asString = s := rfl

theorem takeWhile_all_append {α : Type} (p : α → Bool) (l₁ l₂ : List α)
    (c : α) (h : ∀ a ∈ l₁, p a = true) (hc : p c = false) :
    (l₁ ++ c :: l₂).takeWhile p = l₁ := by
  induction l₁ with
  | nil => simp [List.takeWhile_cons, hc]
  | cons a l ih =>
    have ha : p a = true := h a (by simp)
    simp [List.takeWhile_cons, ha]
    exact ih fun x hx => h x (by simp [hx])

theorem dropWhile_all_append {α : Type} (p : α → Bool) (l₁ l₂ : List α)
    (c : α) (h : ∀ a ∈ l₁, p a = true) (hc : p c = false) :
    (l₁ ++ c :: l₂).dropWhile p = c :: l₂ := by
  induction l₁ with
  | nil => simp [List.dropWhile_cons, hc]
  | cons a l ih =>
    have ha : p a = true := h a (by simp)
    simp [List.dropWhile_cons, ha]
    exact ih fun x hx => h x (by simp [hx])

theorem scanAttrs_true_digits (D : List Char) (rest : List Char)
    (hD : ∀ c ∈ D, c.isDigit = true) :
    scanAttrs true (D ++ '"' :: rest) = scanAttrs false rest := by
  induction D with
  | nil => simp [scanAttrs]
  | cons c D ih =>
    have hc : c.isDigit = true := hD c (by simp)
    have hcq : ¬ c = '"' := by
      intro e; subst e; simp at hc
    simp only [List.cons_append, scanAttrs, if_pos rfl, if_neg hcq]
    exact ih fun x hx => hD x (by simp [hx])

theorem isCloseAhead_cons_ne (c : Char) (l : List Char) (h : ¬ c = '<') :
    isCloseAhead (c :: l) = false := by
  cases l <;> simp [isCloseAhead, h]

example (m : Nat) : parseNodes (m + 1) [] = some ([], []) := by
  simp [parseNodes]

example (m : Nat) (l : List Char) :
    parseNodes (m + 1) ('<' :: '/' :: l) = some ([], '<' :: '/' :: l) := by
  simp [parseNodes, isCloseAhead]

theorem parseNode_text (m : Nat) (T : String) (l : List Char)
    (hT : T.data ≠ []) (hlt : ∀ c ∈ T.data, ¬ c = '<') :
    parseNode (m + 1) (T.data ++ '<' :: l) = some (.text T, '<' :: l) := by
  obtain ⟨c0, ts, hts⟩ : ∃ c0 ts, T.data = c0 :: ts := by
    cases h : T.data with
    | nil => exact absurd h hT
    | cons a b => exact ⟨a, b, rfl⟩
  have hc0 : ¬ c0 = '<' := hlt c0 (by rw [hts]; simp)
  have htw : (T.data ++ '<' :: l).takeWhile (fun c => c ≠ '<') = T.data :=
    takeWhile_all_append _ _ _ _
      (fun a ha => by simpa using hlt a ha) (by simp)
  have hdw : (T.data ++ '<' :: l).dropWhile (fun c => c ≠ '<') = '<' :: l :=
    dropWhile_all_append _ _ _ _
      (fun a ha => by simpa using hlt a ha) (by simp)
  rw [hts] at htw hdw ⊢
  simp only [List.cons_append, parseNode, if_neg hc0]
  rw [List.cons_append] at htw hdw
  simp only [htw, hdw]
  simp [← hts, data_asString]

theorem parseNodes_stop (fuel : Nat) (cs : List Char)
    (h : isCloseAhead cs = true) : parseNodes fuel cs = some ([], cs) := by
  have hne : cs.isEmpty = false := by
    cases cs with
    | nil => simp [isCloseAhead] at h
    | cons a l => simp
  cases fuel <;> simp [parseNodes, hne, h]

theorem parseNodes_nil (fuel : Nat) : parseNodes fuel [] = some ([], []) := by
  cases fuel <;> simp [parseNodes]

theorem parseNodes_step (fuel : Nat) (c : Char) (cs : List Char)
    (hclose : isCloseAhead (c :: cs) = false) :
    parseNodes (fuel + 1) (c :: cs)
      = match parseNode fuel (c :: cs) with
        | none => none
        | some (n, rest) =>
          match parseNodes fuel rest with
          | none => none
          | some (ns, rest') => some (n :: ns, rest') := by
  simp [parseNodes, hclose]

theorem parseNodes_text_stop (m : Nat) (T : String) (l : List Char)
    (hT : T.data ≠ []) (hlt : ∀ c ∈ T.data, ¬ c = '<') :
    parseNodes (m + 2) (T.data ++ '<' :: '/' :: l)
      = some ([.text T], '<' :: '/' :: l) := by
  obtain ⟨c0, ts, hts⟩ : ∃ c0 ts, T.data = c0 :: ts := by
    cases h : T.data with
    | nil => exact absurd h hT
    | cons a b => exact ⟨a, b, rfl⟩
  have hc0 : ¬ c0 = '<' := hlt c0 (by rw [hts]; simp)
  have hnode := parseNode_text m T ('/' :: l) hT hlt
  have hstop : parseNodes (m + 1) ('<' :: '/' :: l)
      = some ([], '<' :: '/' :: l) :=
    parseNodes_stop _ _ (by simp [isCloseAhead])
  rw [hts] at hnode ⊢
  simp only [List.cons_append] at hnode ⊢
  rw [parseNodes_step (m + 1) c0 _ (isCloseAhead_cons_ne c0 _ hc0), hnode]
  simp only [hstop]

theorem parseNode_tag_step (fuel : Nat) (rest : List Char) :
    parseNode (fuel + 1) ('<' :: rest)
      = if (rest.takeWhile isNameChar).isEmpty then none
        else
          match scanAttrs false (rest.dropWhile isNameChar) with
          | none => none
          | some (true, rest') =>
            some (.elem (rest.takeWhile isNameChar).asString [], rest')
          | some (false, rest') =>
            match parseNodes fuel rest' with
            | none => none
            | some (children, rest'') =>
              match expectClose (rest.takeWhile isNameChar) rest'' with
              | none => none
              | some rest''' =>
                some (.elem (rest.takeWhile isNameChar).asString children,
                  rest''') := by
  simp [parseNode]

theorem scanAttrs_iq (D : List Char) (R : List Char)
    (hD : ∀ c ∈ D, c.isDigit = true) :
    scanAttrs false (' ' :: 'i' :: '=' :: '"' :: (D ++ '"' :: '>' :: R))
      = some (false, R) := by
  have h1 : scanAttrs false
      (' ' :: 'i' :: '=' :: '"' :: (D ++ '"' :: '>' :: R))
        = scanAttrs true (D ++ '"' :: '>' :: R) := by
    simp [scanAttrs]
  rw [h1, scanAttrs_true_digits D _ hD]
  simp [scanAttrs]

theorem parseNode_a (m : Nat) (D : List Char) (T : String) (l2 : List Char)
    (hD : ∀ c ∈ D, c.isDigit = true)
    (hT : T.data ≠ []) (hlt : ∀ c ∈ T.data, ¬ c = '<') :
    parseNode (m + 3)
      ('<' :: 'a' :: ' ' :: 'i' :: '=' :: '"' ::
        (D ++ '"' :: '>' ::
          (T.data ++ '<' :: '/' :: 'a' :: '>' :: '<' :: '/' :: l2)))
      = some (.elem "a" [.text T], '<' :: '/' :: l2) := by
  rw [show (m + 3) = (m + 2) + 1 from rfl, parseNode_tag_step]
  have htag : ('a' :: ' ' :: 'i' :: '=' :: '"' ::
      (D ++ '"' :: '>' ::
        (T.data ++ '<' :: '/' :: 'a' :: '>' :: '<' :: '/' :: l2))).takeWhile
          isNameChar = ['a'] := by
    simp [List.takeWhile_cons, isNameChar]
  have hafter : ('a' :: ' ' :: 'i' :: '=' :: '"' ::
      (D ++ '"' :: '>' ::
        (T.data ++ '<' :: '/' :: 'a' :: '>' :: '<' :: '/' :: l2))).dropWhile
          isNameChar
      = ' ' :: 'i' :: '=' :: '"' ::
          (D ++ '"' :: '>' ::
            (T.data ++ '<' :: '/' :: 'a' :: '>' :: '<' :: '/' :: l2)) := by
    simp [List.dropWhile_cons, isNameChar]
  rw [htag, hafter,
    scanAttrs_iq D _ hD]
  have hns := parseNodes_text_stop m T ('a' :: '>' :: '<' :: '/' :: l2) hT hlt
  simp only [hns]
  simp [expectClose]
  rfl

theorem parseNodes_inner (m : Nat) (D : List Char) (T : String)
    (hD : ∀ c ∈ D, c.isDigit = true)
    (hT : T.data ≠ []) (hlt : ∀ c ∈ T.data, ¬ c = '<') :
    parseNodes (m + 4)
      ('<' :: 'a' :: ' ' :: 'i' :: '=' :: '"' ::
        (D ++ '"' :: '>' ::
          (T.data ++ '<' :: '/' :: 'a' :: '>' :: '<' :: '/' ::
            'p' :: 'r' :: 'e' :: '>' :: [])))
      = some ([.elem "a" [.text T]],
          '<' :: '/' :: 'p' :: 'r' :: 'e' :: '>' :: []) := by
  rw [show (m + 4) = (m + 3) + 1 from rfl,
    parseNodes_step (m + 3) '<' _ (by simp [isCloseAhead]),
    parseNode_a m D T ('p' :: 'r' :: 'e' :: '>' :: []) hD hT hlt]
  simp only [parseNodes_stop (m + 3)
    ('<' :: '/' :: 'p' :: 'r' :: 'e' :: '>' :: []) (by simp [isCloseAhead])]

theorem parseNode_pre (m : Nat) (D : List Char) (T : String)
    (hD : ∀ c ∈ D, c.isDigit = true)
    (hT : T.data ≠ []) (hlt : ∀ c ∈ T.data, ¬ c = '<') :
    parseNode (m + 5)
      ('<' :: 'p' :: 'r' :: 'e' :: '>' :: '<' :: 'a' :: ' ' :: 'i' :: '=' ::
        '"' :: (D ++ '"' :: '>' ::
          (T.data ++ '<' :: '/' :: 'a' :: '>' :: '<' :: '/' ::
            'p' :: 'r' :: 'e' :: '>' :: [])))
      = some (.elem "pre" [.elem "a" [.text T]], []) := by
  rw [show (m + 5) = (m + 4) + 1 from rfl, parseNode_tag_step]
  have htag : ('p' :: 'r' :: 'e' :: '>' :: '<' :: 'a' :: ' ' :: 'i' :: '=' ::
      '"' :: (D ++ '"' :: '>' ::
        (T.data ++ '<' :: '/' :: 'a' :: '>' :: '<' :: '/' ::
          'p' :: 'r' :: 'e' :: '>' :: []))).takeWhile isNameChar
      = ['p', 'r', 'e'] := by
    simp [List.takeWhile_cons, isNameChar]
  have hafter : ('p' :: 'r' :: 'e' :: '>' :: '<' :: 'a' :: ' ' :: 'i' :: '=' ::
      '"' :: (D ++ '"' :: '>' ::
        (T.data ++ '<' :: '/' :: 'a' :: '>' :: '<' :: '/' ::
          'p' :: 'r' :: 'e' :: '>' :: []))).dropWhile isNameChar
      = '>' :: '<' :: 'a' :: ' ' :: 'i' :: '=' ::
        '"' :: (D ++ '"' :: '>' ::
          (T.data ++ '<' :: '/' :: 'a' :: '>' :: '<' :: '/' ::
            'p' :: 'r' :: 'e' :: '>' :: [])) := by
    simp [List.dropWhile_cons, isNameChar]
  rw [htag, hafter]
  have hsc : scanAttrs false ('>' :: '<' :: 'a' :: ' ' :: 'i' :: '=' ::
      '"' :: (D ++ '"' :: '>' ::
        (T.data ++ '<' :: '/' :: 'a' :: '>' :: '<' :: '/' ::
          'p' :: 'r' :: 'e' :: '>' :: [])))
      = some (false, '<' :: 'a' :: ' ' :: 'i' :: '=' ::
        '"' :: (D ++ '"' :: '>' ::
          (T.data ++ '<' :: '/' :: 'a' :: '>' :: '<' :: '/' ::
            'p' :: 'r' :: 'e' :: '>' :: []))) := by
    simp [scanAttrs]
  rw [hsc]
  simp only [parseNodes_inner m D T hD hT hlt]
  simp [expectClose]
  rfl

theorem parseNodes_fragment (m : Nat) (D : List Char) (T : String)
    (hD : ∀ c ∈ D, c.isDigit = true)
    (hT : T.data ≠ []) (hlt : ∀ c ∈ T.data, ¬ c = '<') :
    parseNodes (m + 6)
      ('<' :: 'p' :: 'r' :: 'e' :: '>' :: '<' :: 'a' :: ' ' :: 'i' :: '=' ::
        '"' :: (D ++ '"' :: '>' ::
          (T.data ++ '<' :: '/' :: 'a' :: '>' :: '<' :: '/' ::
            'p' :: 'r' :: 'e' :: '>' :: [])))
      = some ([.elem "pre" [.elem "a" [.text T]]], []) := by
  rw [show (m + 6) = (m + 5) + 1 from rfl,
    parseNodes_step (m + 5) '<' _ (by simp [isCloseAhead]),
    parseNode_pre m D T hD hT hlt]
  simp only [parseNodes_nil]

theorem digitChar_isDigit (n : Nat) (h : n < 10) :
    (Nat.digitChar n).isDigit = true := by
  interval_cases n <;> decide

theorem toDigitsCore_digits (fuel : Nat) : ∀ (n : Nat) (ds : List Char),
    (∀ c ∈ ds, c.isDigit = true) →
    ∀ c ∈ Nat.toDigitsCore 10 fuel n ds, c.isDigit = true := by
  induction fuel with
  | zero =>
    intro n ds hds c hc
    have e : Nat.toDigitsCore 10 0 n ds = ds := rfl
    rw [e] at hc
    exact hds c hc
  | succ fuel ih =>
    intro n ds hds c hc
    have e : Nat.toDigitsCore 10 (fuel + 1) n ds
        = if n / 10 = 0 then (n % 10).digitChar :: ds
          else Nat.toDigitsCore 10 fuel (n / 10) ((n % 10).digitChar :: ds) :=
      rfl
    rw [e] at hc
    have hd : ((n % 10).digitChar).isDigit = true :=
      digitChar_isDigit _ (Nat.mod_lt _ (by norm_num))
    by_cases h0 : n / 10 = 0
    · rw [if_pos h0] at hc
      rcases List.mem_cons.mp hc with rfl | hmem
      · exact hd
      · exact hds _ hmem
    · rw [if_neg h0] at hc
      refine ih (n / 10) _ (fun x hx => ?_) c hc
      rcases List.mem_cons.mp hx with rfl | hxx
      · exact hd
      · exact hds _ hxx

theorem toDigitsCore_ne_nil (fuel : Nat) : ∀ (n : Nat) (ds : List Char),
    ds ≠ [] → Nat.toDigitsCore 10 fuel n ds ≠ [] := by
  induction fuel with
  | zero =>
    intro n ds hds
    exact hds
  | succ fuel ih =>
    intro n ds hds
    have e : Nat.toDigitsCore 10 (fuel + 1) n ds
        = if n / 10 = 0 then (n % 10).digitChar :: ds
          else Nat.toDigitsCore 10 fuel (n / 10) ((n % 10).digitChar :: ds) :=
      rfl
    rw [e]
    by_cases h0 : n / 10 = 0
    · rw [if_pos h0]; simp
    · rw [if_neg h0]; exact ih (n / 10) _ (by simp)

theorem toString_nat_spec (i : Nat) :
    (toString i).data ≠ [] ∧ ∀ c ∈ (toString i).data, c.isDigit = true := by
  have e : (toString i).data = Nat.toDigitsCore 10 (i + 1) i [] := rfl
  constructor
  · rw [e]
    have e2 : Nat.toDigitsCore 10 (i + 1) i []
        = if i / 10 = 0 then (i % 10).digitChar :: []
          else Nat.toDigitsCore 10 i (i / 10) ((i % 10).digitChar :: []) :=
      rfl
    rw [e2]
    by_cases h0 : i / 10 = 0
    · rw [if_pos h0]; simp
    · rw [if_neg h0]; exact toDigitsCore_ne_nil i (i / 10) _ (by simp)
  · rw [e]
    exact toDigitsCore_digits (i + 1) i [] (by simp)

theorem parseXMLString_fragment (d T : String)
    (hd : ∀ c ∈ d.data, c.isDigit = true)
    (hT : T ≠ "") (hlt : ∀ c ∈ T.data, ¬ c = '<') :
    parseXMLString ("<pre><a i=\"" ++ d ++ "\">" ++ T ++ "</a></pre>")
      = some [.elem "pre" [.elem "a" [.text T]]] := by
  have hTd : T.data ≠ [] := fun h => hT (String.ext h)
  set s := "<pre><a i=\"" ++ d ++ "\">" ++ T ++ "</a></pre>" with hs
  have e1 : ("<pre><a i=\"" : String).data
      = ['<', 'p', 'r', 'e', '>', '<', 'a', ' ', 'i', '=', '"'] := rfl
  have e2 : ("\">" : String).data = ['"', '>'] := rfl
  have e3 : ("</a></pre>" : String).data
      = ['<', '/', 'a', '>', '<', '/', 'p', 'r', 'e', '>'] := rfl
  have hdata : s.data
      = '<' :: 'p' :: 'r' :: 'e' :: '>' :: '<' :: 'a' :: ' ' :: 'i' :: '=' ::
        '"' :: (d.data ++ '"' :: '>' ::
          (T.data ++ '<' :: '/' :: 'a' :: '>' :: '<' :: '/' ::
            'p' :: 'r' :: 'e' :: '>' :: [])) := by
    rw [hs]
    simp [String.data_append, e1, e2, e3]
  have l1 : ("<pre><a i=\"" : String).length = 11 := rfl
  have l2 : ("\">" : String).length = 2 := rfl
  have l3 : ("</a></pre>" : String).length = 10 := rfl
  have h5 : 5 ≤ s.length := by
    rw [hs]
    simp [String.length_append, l1, l2, l3]
  obtain ⟨m, hm⟩ : ∃ m, s.length + 1 = m + 6 := ⟨s.length - 5, by omega⟩
  unfold parseXMLString
  rw [hdata, hm, parseNodes_fragment m d.data T hd hTd hlt]

theorem parseXMLResponse_fragment (d T : String)
    (hd : ∀ c ∈ d.data, c.isDigit = true)
    (hT : T ≠ "") (hlt : ∀ c ∈ T.data, ¬ c = '<') :
    GoogleTranslator.parseXMLResponse
        ("<pre><a i=\"" ++ d ++ "\">" ++ T ++ "</a></pre>") = some T := by
  unfold GoogleTranslator.parseXMLResponse
  rw [parseXMLString_fragment d T hd hT hlt]
  rfl

theorem encodeForBatch_getD (texts : List String) (i : Nat)
    (hi : i < texts.length) :
    (GoogleTranslator.encodeForBatch texts).getD i ""
      = "<pre><a i=\"" ++ toString i ++ "\">" ++ texts.getD i ""
          ++ "</a></pre>" := by
  have hlen : i < (GoogleTranslator.encodeForBatch texts).length := by
    simp [GoogleTranslator.encodeForBatch, hi]
  have hlen2 : i < texts.enum.length := by simp [hi]
  rw [List.getD_eq_getElem _ _ hlen, List.getD_eq_getElem _ _ hi]
  simp only [GoogleTranslator.encodeForBatch, List.getElem_map,
    List.getElem_enum]

/-- C6 (amended): decoding the markup fragment produced by encoding a
non-empty text containing no markup-special characters at any position
returns that text unchanged.  (For the empty text the fragment holds no
text node, so decoding yields the no-content sentinel instead.) -/
theorem encode_decode_roundtrip (texts : List String) (i : Nat)
    (hi : i < texts.length)
    (hne : texts.getD i "" ≠ "")
    (hspec : ∀ c ∈ (texts.getD i "").data, ¬ isMarkupSpecial c) :
    GoogleTranslator.parseXMLResponse
        ((GoogleTranslator.encodeForBatch texts).getD i "")
      = some (texts.getD i "") := by
  rw [encodeForBatch_getD texts i hi]
  refine parseXMLResponse_fragment (toString i) _ (toString_nat_spec i).2 hne
    fun c hc => ?_
  have := hspec c hc
  simp [isMarkupSpecial] at this
  exact this.1

/-- Witness for C6 (amended): the fragment for `world` at position 1
decodes back to `world`. -/
theorem encode_decode_roundtrip_witness :
    GoogleTranslator.parseXMLResponse
        ((GoogleTranslator.encodeForBatch ["hello", "world"]).getD 1 "")
      = some ((["hello", "world"] : List String).getD 1 "") :=
  encode_decode_roundtrip ["hello", "world"] 1 (by decide) (by decide)
    (by decide)

/-- C6 refuted as stated: for the empty text — which contains no
markup-special characters — the encoded fragment decodes to the no-content
sentinel, not to the empty text. -/
theorem roundtrip_fails_on_empty_text :
    GoogleTranslator.parseXMLResponse
        ((GoogleTranslator.encodeForBatch [""]).getD 0 "")
      ≠ some "" := by
  decide

mutual

theorem selectTexts_eq_spec (n : XNode) :
    n.selectTexts = specKeptTexts n := by
  match n with
  | .text s => rfl
  | .elem tag children =>
    rw [XNode.selectTexts, specKeptTexts, XNode.collectPres,
      selectTextsList_eq_spec children]
    by_cases h : tag = "pre" <;>
      simp [h, XNode.preKeptTexts, specKeptTexts]

theorem selectTextsList_eq_spec (l : List XNode) :
    XNode.selectTextsList l
      = (XNode.collectPresList l).flatMap XNode.preKeptTexts := by
  match l with
  | [] => rfl
  | c :: cs =>
    rw [XNode.selectTextsList, XNode.collectPresList,
      selectTexts_eq_spec c, selectTextsList_eq_spec cs,
      List.flatMap_append, specKeptTexts]

end

/-- C7 (amended): decoding a markup leaf parses it and returns the
space-separated join of the text content below the non-annotation (non-`i`)
element children of each `pre` container — text directly below the
container and text below `i`-tagged children are excluded — and yields the
distinguished no-content value `none`, distinct from `some ""`, when
parsing fails or nothing is selected, never an error. -/
theorem decode_extraction_contract (s : String) :
    (∀ doc, parseXMLString s = some doc →
        GoogleTranslator.parseXMLResponse s
          = (if (doc.flatMap specKeptTexts).length = 0 then none
             else some (String.intercalate " " (doc.flatMap specKeptTexts))))
  ∧ (parseXMLString s = none → GoogleTranslator.parseXMLResponse s = none)
  := by
  constructor
  · intro doc h
    unfold GoogleTranslator.parseXMLResponse
    rw [h, show XNode.selectTexts = specKeptTexts from
      funext selectTexts_eq_spec]
  · intro h
    unfold GoogleTranslator.parseXMLResponse
    rw [h]


/-- Witness for C7 (amended): a parse-successful fragment takes the
selection branch, and an unclosed fragment fails parsing and decodes to
`none`. -/
theorem decode_extraction_contract_witness :
    GoogleTranslator.parseXMLResponse "<pre><a>hi</a></pre>"
      = (if (([XNode.elem "pre" [XNode.elem "a" [XNode.text "hi"]]] :
            List XNode).flatMap specKeptTexts).length = 0 then none
         else some (String.intercalate " "
           (([XNode.elem "pre" [XNode.elem "a" [XNode.text "hi"]]] :
             List XNode).flatMap specKeptTexts)))
  ∧ GoogleTranslator.parseXMLResponse "<pre>" = none :=
  ⟨(decode_extraction_contract "<pre><a>hi</a></pre>").1
      [XNode.elem "pre" [XNode.elem "a" [XNode.text "hi"]]] rfl,
   (decode_extraction_contract "<pre>").2 rfl⟩

/-- C7 refuted as stated: for `<pre>x<a>y</a></pre>` the claimed extraction
(plain concatenation of all text below the container, excluding only
`i`-tagged children) yields `xy`, but the decoder returns `y` — text
directly below the container is dropped; and for
`<pre><a>x</a><b>y</b></pre>` the decoder returns the space-joined `x y`,
not the concatenation `xy`. -/
theorem decode_not_claimed_concat :
    claimedDecode "<pre>x<a>y</a></pre>" = some "xy"
  ∧ GoogleTranslator.parseXMLResponse "<pre>x<a>y</a></pre>" = some "y"
  ∧ claimedDecode "<pre><a>x</a><b>y</b></pre>" = some "xy"
  ∧ GoogleTranslator.parseXMLResponse "<pre><a>x</a><b>y</b></pre>"
      = some "x y"
  ∧ some "y" ≠ some ("xy" : String)
  ∧ some "x y" ≠ some ("xy" : String) := by
  decide
